import Mathlib

/-!
Verification of the bounded per-conversation history store of `cogs/aichat.py`
(class `AIChat`: methods `get_history` and `save_message` over the SQLite table
`ai_chat_history`), and of the early-return path of
`cogs/gift_operationsapi.py` (`GiftOperationsAPI.remove_giftcode`).

The SQLite table `ai_chat_history` has an auto-incrementing integer primary key
`id` and columns (`user_id`, `channel_name`, `role`, `content`).  We model the
table as a list of rows kept in insertion order together with the next value of
the auto-increment counter.  Under the well-formedness invariant `WF` (ids are
strictly increasing along the list and below the counter), `ORDER BY id ASC` is
the list order and `ORDER BY id DESC` is its reversal.  A storage fault
(`sqlite3.connect` raising) is modelled by a boolean `fault` flag on each
operation; both Python methods wrap their whole body in
`try ... except Exception: print(...)`.
-/

namespace AIChat

/-- One row of the `ai_chat_history` table. -/
structure Row where
  id : Nat
  user_id : Nat
  channel_name : String
  role : String
  content : String
deriving DecidableEq, Repr

/-- The store: the `ai_chat_history` table in insertion order, plus the next
auto-increment `id` value. -/
structure DB where
  rows : List Row
  next_id : Nat
deriving DecidableEq, Repr

/-- A freshly created database file: no rows, auto-increment starts at 1. -/
def dbEmpty : DB := ⟨[], 1⟩

/-- Source constant `HISTORY_LENGTH = 10` (module-level in `aichat.py`).  The
operations below take the history length `H` as a parameter so that the
configurable-retention claims can be stated; the source instantiates `H`
with this constant. -/
def HISTORY_LENGTH : Nat := 10

/-- The rows of the table matching `WHERE user_id = ? AND channel_name = ?`,
in insertion (`id ASC`) order. -/
def keyRows (db : DB) (u : Nat) (c : String) : List Row :=
  db.rows.filter (fun r => r.user_id == u && r.channel_name == c)

/-- Number of stored turns for a key. -/
def countKey (db : DB) (u : Nat) (c : String) : Nat :=
  (keyRows db u c).length

/-- A chat message as assembled by `get_history`: a role/content pair. -/
structure Msg where
  role : String
  content : String
deriving DecidableEq, Repr

/-- The constant system prompt that `get_history` always places first. -/
def systemMsg : Msg :=
  ⟨"system",
   "Jesteś realistycznym polskim nastolatkiem (ok. 17 lat). Masz mnóstwo zainteresowań: gry komputerowe i planszowe, sport, muzyka, filmy, seriale, anime, programowanie, podróże, memy, gotowanie, motoryzacja, nauka, historia, technologia i wiele innych – możesz rozmawiać na każdy temat, a rozmowa z Tobą nigdy nie jest nudna. Mówisz młodzieżowym, swobodnym, naturalnym stylem, czasem wtrącasz potoczne zwroty i emotki (np. XD, git, spoko, ej, lol), ale nie przesadzasz – starasz się, by każda odpowiedź była autentyczna, luźna, ale nie karykaturalna. Gdy rozmowa schodzi na temat relacji, uczuć lub zakochania, stajesz się dobrym romantykiem: jesteś empatyczny, wrażliwy i wspierający, potrafisz okazać zrozumienie i napisać coś miłego lub dać poradę. Zawsze reagujesz tak, jak prawdziwy, otwarty i ogarnięty nastolatek z Discorda – czasem żartujesz, czasem jesteś poważny, zależnie od tonu rozmowy."⟩

/-- `SELECT role, content FROM ai_chat_history WHERE user_id = ? AND
channel_name = ? ORDER BY id DESC LIMIT ?` with `LIMIT` bound to `limit`:
the newest `limit` rows of the key, newest first. -/
def selectDesc (db : DB) (u : Nat) (c : String) (limit : Nat) : List Row :=
  (keyRows db u c).reverse.take limit

/-- The store-level read: the rows delivered by `selectDesc` are traversed in
`reversed(rows)` order (so oldest first) and turned into role/content
messages.  This is `get_history`'s loop, parameterised by the SQL `LIMIT`
(the source binds it to `HISTORY_LENGTH*2`). -/
def fetch_recent (db : DB) (u : Nat) (c : String) (limit : Nat) : List Msg :=
  (selectDesc db u c limit).reverse.map (fun r => ⟨r.role, r.content⟩)

/-- The turns part of `get_history`: on a storage fault the whole
`try` block is skipped (the `except` clause only prints), so no turns are
appended; otherwise the newest `HISTORY_LENGTH*2` turns are read. -/
def history_turns (H : Nat) (fault : Bool) (db : DB) (u : Nat) (c : String) :
    List Msg :=
  if fault then [] else fetch_recent db u c (H * 2)

/-- `AIChat.get_history(user_id, channel_name)`: the system prompt followed by
the stored turns (empty on fault).  It never raises: the `except` clause
swallows any storage error and the accumulated `history` list is returned. -/
def get_history (H : Nat) (fault : Bool) (db : DB) (u : Nat) (c : String) :
    List Msg :=
  systemMsg :: history_turns H fault db u c

/-- `get_history` as a state transformer: it only executes `SELECT`
statements, so the store is returned unchanged. -/
def get_history_op (H : Nat) (fault : Bool) (db : DB) (u : Nat) (c : String) :
    List Msg × DB :=
  (get_history H fault db u c, db)

/-- The error the spec calls `StorageUnavailable`. -/
inductive StorageErr
  | unavailable
deriving DecidableEq, Repr

/-- The `INSERT INTO ai_chat_history (user_id, channel_name, role, content)
VALUES (?, ?, ?, ?)` step of `save_message`: appends a row carrying the next
auto-increment id. -/
def save_insert (db : DB) (u : Nat) (c role content : String) : DB :=
  ⟨db.rows ++ [⟨db.next_id, u, c, role, content⟩], db.next_id + 1⟩

/-- `SELECT id FROM ai_chat_history WHERE user_id = ? AND channel_name = ?
ORDER BY id DESC LIMIT -1 OFFSET ?` with the offset bound to `H*2`:
the ids of every row of the key except the newest `H*2`. -/
def trim_old_ids (db : DB) (H : Nat) (u : Nat) (c : String) : List Nat :=
  ((keyRows db u c).reverse.drop (H * 2)).map Row.id

/-- `executemany("DELETE FROM ai_chat_history WHERE id = ?", ...)`: removes
every row whose id is listed. -/
def delete_ids (db : DB) (ids : List Nat) : DB :=
  ⟨db.rows.filter (fun r => !(ids.contains r.id)), db.next_id⟩

/-- The fault-free body of `save_message`: insert, then select the ids beyond
the newest `H*2` for the key and (under the source's `if old_ids:` guard)
delete them. -/
def save_ok (H : Nat) (db : DB) (u : Nat) (c role content : String) : DB :=
  let db1 := save_insert db u c role content
  let old_ids := trim_old_ids db1 H u c
  if old_ids.isEmpty then db1 else delete_ids db1 old_ids

/-- `AIChat.save_message(user_id, channel_name, role, content)`.  The whole
body sits in `try ... except Exception: print(...)`, so a storage fault
(modelled as `connect` raising, before any write) leaves the store unchanged
and the method still returns normally — it never propagates an error. -/
def save_message (H : Nat) (fault : Bool) (db : DB) (u : Nat)
    (c role content : String) : Except StorageErr DB :=
  Except.ok (if fault then db else save_ok H db u c role content)

/-- One append request: its fault flag and the arguments of `save_message`. -/
structure SaveOp where
  fault : Bool
  u : Nat
  c : String
  role : String
  content : String
deriving DecidableEq, Repr

/-- The store state after one `save_message` call. -/
def applySave (H : Nat) (op : SaveOp) (db : DB) : DB :=
  (save_message H op.fault db op.u op.c op.role op.content).toOption.getD db

/-- The store state after a sequence of `save_message` calls. -/
def applySaves (H : Nat) (ops : List SaveOp) (db : DB) : DB :=
  ops.foldl (fun d op => applySave H op d) db

/-- The row inserted by `save_message` on store `db`. -/
def newRow (db : DB) (u : Nat) (c role content : String) : Row :=
  ⟨db.next_id, u, c, role, content⟩

/-- The key predicate of the `WHERE user_id = ? AND channel_name = ?` clause. -/
def keyP (u : Nat) (c : String) : Row → Bool :=
  fun r => r.user_id == u && r.channel_name == c

/-- The full chronological turn list for a key, as role/content messages. -/
def turns (db : DB) (u : Nat) (c : String) : List Msg :=
  (keyRows db u c).map (fun r => ⟨r.role, r.content⟩)

/-- Well-formedness of the modelled table: row ids strictly increase along
insertion order and are below the auto-increment counter.  Holds for the
empty store and is preserved by every operation. -/
def WF (db : DB) : Prop :=
  db.rows.Pairwise (fun a b => a.id < b.id) ∧ ∀ r ∈ db.rows, r.id < db.next_id

instance : DecidablePred WF := fun db => by
  unfold WF; infer_instance

end AIChat

namespace GiftOps

/-- One row of the local `gift_codes` table: (giftcode, date). -/
structure GiftCodeRow where
  giftcode : String
  date : String
deriving DecidableEq, Repr

/-- One row of the local `user_giftcodes` table, keyed by giftcode. -/
structure UserGiftRow where
  giftcode : String
  payload : String
deriving DecidableEq, Repr

/-- The local database state touched by `GiftOperationsAPI`. -/
structure GiftState where
  gift_codes : List GiftCodeRow
  user_giftcodes : List UserGiftRow
deriving DecidableEq, Repr

/-- Outcome of the `DELETE` HTTP round-trip inside `remove_giftcode`:
either the session raised (caught by the outer `except`), or a response
with a status code, a raw body, and — when the body parses as JSON — the
set of top-level keys of the result object. -/
inductive ApiOutcome
  | raised
  | response (status : Nat) (text : String) (jsonKeys : Option (List String))
deriving DecidableEq, Repr

/-- `GiftOperationsAPI.remove_giftcode(giftcode, from_validation)`.
Returns the boolean result, the local state after the call, and whether an
HTTP request was issued.  When `from_validation` is false the method
returns `False` before any session is created; otherwise it issues the
`DELETE`, and only on a 200 response whose JSON has a `success` key does it
delete the code from both local tables. -/
def remove_giftcode (st : GiftState) (giftcode : String)
    (from_validation : Bool) (net : ApiOutcome) : Bool × GiftState × Bool :=
  if !from_validation then
    (false, st, false)
  else
    match net with
    | .raised => (false, st, true)
    | .response status text jsonKeys =>
      if status == 200 then
        if text == "" then (false, st, true)
        else
          match jsonKeys with
          | none => (false, st, true)
          | some keys =>
            if keys.contains "success" then
              (true,
               ⟨st.gift_codes.filter (fun r => !(r.giftcode == giftcode)),
                st.user_giftcodes.filter (fun r => !(r.giftcode == giftcode))⟩,
               true)
            else (false, st, true)
      else (false, st, true)

end GiftOps

namespace AIChat

theorem keyRows_eq_filter (db : DB) (u : Nat) (c : String) :
    keyRows db u c = db.rows.filter (keyP u c) := rfl

theorem keyRows_save_insert_self (db : DB) (u : Nat) (c role content : String) :
    keyRows (save_insert db u c role content) u c =
      keyRows db u c ++ [newRow db u c role content] := by
  simp [keyRows, save_insert, List.filter_append, newRow]

theorem keyRows_save_insert_other (db : DB) (u : Nat) (c role content : String)
    (u' : Nat) (c' : String) (h : ¬(u' = u ∧ c' = c)) :
    keyRows (save_insert db u c role content) u' c' = keyRows db u' c' := by
  simp only [keyRows, save_insert, List.filter_append]
  have : ((⟨db.next_id, u, c, role, content⟩ : Row).user_id == u' &&
      (⟨db.next_id, u, c, role, content⟩ : Row).channel_name == c') = false := by
    simp only [Bool.and_eq_false_iff, beq_eq_false_iff_ne, ne_eq]
    by_cases hu : u = u'
    · right; intro hc; exact h ⟨hu.symm, hc.symm⟩
    · left; exact hu
  simp [this]

theorem wf_dbEmpty : WF dbEmpty := by decide

theorem wf_ids_nodup {db : DB} (h : WF db) : (db.rows.map Row.id).Nodup := by
  have := h.1
  rw [List.Nodup, List.pairwise_map]
  exact this.imp (fun hlt => Nat.ne_of_lt hlt)

theorem wf_save_insert {db : DB} (h : WF db) (u : Nat) (c role content : String) :
    WF (save_insert db u c role content) := by
  obtain ⟨h1, h2⟩ := h
  constructor
  · rw [save_insert, List.pairwise_append]
    refine ⟨h1, List.pairwise_singleton _ _, ?_⟩
    intro a ha b hb
    simp only [List.mem_singleton] at hb
    subst hb
    exact h2 a ha
  · intro r hr
    rw [save_insert] at hr
    simp only [List.mem_append, List.mem_singleton] at hr
    rcases hr with hr | hr
    · exact Nat.lt_trans (h2 r hr) (Nat.lt_succ_self _)
    · subst hr; exact Nat.lt_succ_self _

theorem wf_delete_ids {db : DB} (h : WF db) (ids : List Nat) :
    WF (delete_ids db ids) := by
  obtain ⟨h1, h2⟩ := h
  constructor
  · exact List.Pairwise.sublist (List.filter_sublist _) h1
  · intro r hr
    rw [delete_ids] at hr
    exact h2 r (List.mem_of_mem_filter hr)

theorem wf_save_ok {db : DB} (h : WF db) (H : Nat) (u : Nat)
    (c role content : String) : WF (save_ok H db u c role content) := by
  rw [save_ok]
  split
  · exact wf_save_insert h u c role content
  · exact wf_delete_ids (wf_save_insert h u c role content) _

theorem applySave_eq (H : Nat) (op : SaveOp) (db : DB) :
    applySave H op db =
      if op.fault then db else save_ok H db op.u op.c op.role op.content := by
  rw [applySave, save_message]
  split <;> rfl

theorem wf_applySave {db : DB} (h : WF db) (H : Nat) (op : SaveOp) :
    WF (applySave H op db) := by
  rw [applySave_eq]
  split
  · exact h
  · exact wf_save_ok h H op.u op.c op.role op.content


theorem reverse_drop_eq {α : Type} (l : List α) (m : Nat) :
    l.reverse.drop m = (l.take (l.length - m)).reverse := by
  have h : l.rdrop m = (l.reverse.drop m).reverse :=
    List.rdrop_eq_reverse_drop_reverse l m
  rw [List.rdrop] at h
  rw [h, List.reverse_reverse]

theorem filter_not_mem_take_ids {rows : List Row}
    (hnd : (rows.map Row.id).Nodup) (l : List Row) (hsub : l.Sublist rows)
    (d : Nat) (ids : List Nat) (hids : ∀ a, a ∈ ids ↔ a ∈ (l.take d).map Row.id) :
    l.filter (fun r => !(ids.contains r.id)) = l.drop d := by
  have hnodl : (l.map Row.id).Nodup :=
    List.Nodup.sublist (List.Sublist.map Row.id hsub) hnd
  have hsplit : l.map Row.id = (l.take d).map Row.id ++ (l.drop d).map Row.id := by
    rw [← List.map_append, List.take_append_drop]
  have hdisj : List.Disjoint ((l.take d).map Row.id) ((l.drop d).map Row.id) := by
    have h2 := hsplit ▸ hnodl
    exact (List.nodup_append.mp h2).2.2
  conv_lhs => rw [← List.take_append_drop d l]
  rw [List.filter_append]
  have htake : (l.take d).filter (fun r => !(ids.contains r.id)) = [] := by
    rw [List.filter_eq_nil_iff]
    intro r hr
    have : r.id ∈ ids := (hids r.id).mpr (List.mem_map_of_mem Row.id hr)
    simp [this]
  have hdrop : (l.drop d).filter (fun r => !(ids.contains r.id)) = l.drop d := by
    rw [List.filter_eq_self]
    intro r hr
    have hmem : r.id ∈ (l.drop d).map Row.id := List.mem_map_of_mem Row.id hr
    have hnot : r.id ∉ ids := by
      intro hin
      exact hdisj ((hids r.id).mp hin) hmem
    simp [hnot]
  rw [htake, hdrop, List.nil_append]

theorem mem_rows_of_mem_keyRows {db : DB} {u : Nat} {c : String} {r : Row}
    (h : r ∈ keyRows db u c) : r ∈ db.rows := by
  rw [keyRows] at h
  exact List.mem_of_mem_filter h

theorem key_eq_of_mem_keyRows {db : DB} {u : Nat} {c : String} {r : Row}
    (h : r ∈ keyRows db u c) : r.user_id = u ∧ r.channel_name = c := by
  rw [keyRows] at h
  have h2 := List.of_mem_filter h
  simpa using h2

theorem keyRows_delete_ids (db : DB) (ids : List Nat) (u : Nat) (c : String) :
    keyRows (delete_ids db ids) u c =
      (keyRows db u c).filter (fun r => !(ids.contains r.id)) := by
  rw [keyRows, delete_ids, keyRows, List.filter_filter, List.filter_filter]
  exact List.filter_congr (fun a _ => Bool.and_comm _ _)

theorem keyRows_save_ok_self (H : Nat) (db : DB) (u : Nat)
    (c role content : String) (hwf : WF db) :
    keyRows (save_ok H db u c role content) u c =
      (keyRows db u c ++ [newRow db u c role content]).drop
        ((keyRows db u c).length + 1 - H * 2) := by
  have hwf1 := wf_save_insert hwf u c role content
  have hlkey : keyRows (save_insert db u c role content) u c
      = keyRows db u c ++ [newRow db u c role content] :=
    keyRows_save_insert_self db u c role content
  set db1 := save_insert db u c role content with hdb1
  set l := keyRows db1 u c with hl
  have hlen : l.length = (keyRows db u c).length + 1 := by rw [hlkey]; simp
  have hold : trim_old_ids db1 H u c
      = (l.take (l.length - H * 2)).reverse.map Row.id := by
    rw [trim_old_ids, ← hl, reverse_drop_eq]
  have hids : ∀ a, a ∈ trim_old_ids db1 H u c ↔
      a ∈ (l.take (l.length - H * 2)).map Row.id := by
    intro a; rw [hold]; simp
  have hgoal_rhs : (keyRows db u c ++ [newRow db u c role content]).drop
      ((keyRows db u c).length + 1 - H * 2) = l.drop (l.length - H * 2) := by
    rw [← hlen, hlkey]
  rw [hgoal_rhs]
  simp only [save_ok]
  by_cases hemp : (trim_old_ids db1 H u c).isEmpty
  · rw [if_pos hemp]
    have h0 : l.take (l.length - H * 2) = [] := by
      rw [List.isEmpty_iff] at hemp
      rw [hold] at hemp
      simpa using hemp
    have hle : l.length - H * 2 = 0 := by
      rcases List.take_eq_nil_iff.mp h0 with h | h
      · exact h
      · rw [h] at hlen; simp at hlen
    rw [hle, List.drop_zero]
  · rw [if_neg hemp, keyRows_delete_ids, ← hl]
    exact filter_not_mem_take_ids (wf_ids_nodup hwf1) l
      (by rw [hl, keyRows]; exact List.filter_sublist _) (l.length - H * 2)
      (trim_old_ids db1 H u c) hids

theorem keyRows_save_ok_other (H : Nat) (db : DB) (u : Nat)
    (c role content : String) (u' : Nat) (c' : String) (hwf : WF db)
    (hne : ¬(u' = u ∧ c' = c)) :
    keyRows (save_ok H db u c role content) u' c' = keyRows db u' c' := by
  have hwf1 := wf_save_insert hwf u c role content
  have hother := keyRows_save_insert_other db u c role content u' c' hne
  simp only [save_ok]
  by_cases hemp : (trim_old_ids (save_insert db u c role content) H u c).isEmpty
  · rw [if_pos hemp, hother]
  · rw [if_neg hemp, keyRows_delete_ids, hother]
    rw [List.filter_eq_self]
    intro r hr
    have hnot : r.id ∉ trim_old_ids (save_insert db u c role content) H u c := by
      intro hin
      rw [trim_old_ids] at hin
      rcases List.mem_map.mp hin with ⟨s, hs, hsid⟩
      have hs1 : s ∈ keyRows (save_insert db u c role content) u c :=
        List.mem_reverse.mp (List.mem_of_mem_drop hs)
      have hr1 : r ∈ (save_insert db u c role content).rows := by
        have : r ∈ db.rows := mem_rows_of_mem_keyRows hr
        rw [save_insert]
        exact List.mem_append_left _ this
      have hs2 : s ∈ (save_insert db u c role content).rows :=
        mem_rows_of_mem_keyRows hs1
      have heq : s = r :=
        List.inj_on_of_nodup_map (wf_ids_nodup hwf1) hs2 hr1 hsid
      have hk1 := key_eq_of_mem_keyRows hs1
      have hk2 := key_eq_of_mem_keyRows hr
      rw [heq] at hk1
      exact hne ⟨hk2.1 ▸ hk1.1 ▸ rfl, hk2.2 ▸ hk1.2 ▸ rfl⟩
    simp [hnot]

theorem countKey_save_ok_self (H : Nat) (db : DB) (u : Nat)
    (c role content : String) (hwf : WF db) :
    countKey (save_ok H db u c role content) u c ≤ H * 2 := by
  rw [countKey, keyRows_save_ok_self H db u c role content hwf]
  rw [List.length_drop]
  simp only [List.length_append, List.length_cons, List.length_nil]
  omega

theorem countKey_applySave_le (H : Nat) (op : SaveOp) (db : DB) (u : Nat)
    (c : String) (hwf : WF db) (hle : countKey db u c ≤ H * 2) :
    countKey (applySave H op db) u c ≤ H * 2 := by
  rw [applySave_eq]
  split
  · exact hle
  · by_cases hk : u = op.u ∧ c = op.c
    · rcases hk with ⟨hu, hc⟩
      rw [hu, hc]
      exact countKey_save_ok_self H db op.u op.c op.role op.content hwf
    · rw [countKey, keyRows_save_ok_other H db op.u op.c op.role op.content u c hwf hk]
      exact hle

theorem wf_applySaves (H : Nat) (ops : List SaveOp) {db : DB} (h : WF db) :
    WF (applySaves H ops db) := by
  induction ops generalizing db with
  | nil => exact h
  | cons op ops ih => exact ih (wf_applySave h H op)

theorem countKey_applySaves_le (H : Nat) (ops : List SaveOp) {db : DB}
    (u : Nat) (c : String) (hwf : WF db) (hle : countKey db u c ≤ H * 2) :
    countKey (applySaves H ops db) u c ≤ H * 2 := by
  induction ops generalizing db with
  | nil => exact hle
  | cons op ops ih =>
      exact ih (wf_applySave hwf H op) (countKey_applySave_le H op db u c hwf hle)

theorem fetch_recent_eq_drop (db : DB) (u : Nat) (c : String) (limit : Nat) :
    fetch_recent db u c limit =
      ((keyRows db u c).drop ((keyRows db u c).length - limit)).map
        (fun r => Msg.mk r.role r.content) := by
  rw [fetch_recent, selectDesc]
  have h := List.rtake_eq_reverse_take_reverse (keyRows db u c) limit
  rw [List.rtake] at h
  rw [← h]

/-- Claim C1: for every sequence of `save_message` calls, after each call the
number of stored turns for a key never exceeds `2 × HISTORY_LENGTH` (here
`H * 2`), provided the store started within the bound (e.g. empty). -/
theorem save_message_count_bounded (H : Nat) (ops : List SaveOp) (db : DB)
    (u : Nat) (c : String) (n : Nat) (hwf : WF db)
    (hle : countKey db u c ≤ H * 2) :
    countKey (applySaves H (ops.take n) db) u c ≤ H * 2 :=
  countKey_applySaves_le H (ops.take n) u c hwf hle

theorem save_message_count_bounded_witness :
    WF dbEmpty ∧ countKey dbEmpty 1 "ch" ≤ 1 * 2 ∧
      countKey
        (applySaves 1
          (([⟨false, 1, "ch", "user", "m1"⟩, ⟨false, 1, "ch", "assistant", "m2"⟩,
             ⟨false, 1, "ch", "user", "m3"⟩] : List SaveOp).take 3) dbEmpty)
        1 "ch" ≤ 1 * 2 :=
  ⟨by decide, by decide,
   save_message_count_bounded 1
     [⟨false, 1, "ch", "user", "m1"⟩, ⟨false, 1, "ch", "assistant", "m2"⟩,
      ⟨false, 1, "ch", "user", "m3"⟩] dbEmpty 1 "ch" 3 (by decide) (by decide)⟩

/-- Claim C2: `get_history`'s row query, generalised over the SQL `LIMIT`
parameter (the source binds it to `HISTORY_LENGTH*2`), returns the most
recent `limit` turns in chronological order — the length-`min limit n`
suffix of the chronological turn list — and all turns when fewer than
`limit` exist. -/
theorem fetch_recent_most_recent (db : DB) (u : Nat) (c : String)
    (limit : Nat) :
    fetch_recent db u c limit =
      (turns db u c).drop ((turns db u c).length - limit) ∧
    ((turns db u c).length ≤ limit → fetch_recent db u c limit = turns db u c) := by
  constructor
  · rw [fetch_recent_eq_drop, turns, List.length_map, List.map_drop]
  · intro hle
    rw [turns, List.length_map] at hle
    rw [fetch_recent_eq_drop, Nat.sub_eq_zero_of_le hle, List.drop_zero, turns]

theorem fetch_recent_most_recent_witness :
    (turns (⟨[⟨1, 1, "ch", "user", "u1"⟩, ⟨2, 1, "ch", "assistant", "a1"⟩], 3⟩ : DB)
        1 "ch").length ≤ 5 ∧
    fetch_recent (⟨[⟨1, 1, "ch", "user", "u1"⟩, ⟨2, 1, "ch", "assistant", "a1"⟩], 3⟩ : DB)
        1 "ch" 5 =
      turns (⟨[⟨1, 1, "ch", "user", "u1"⟩, ⟨2, 1, "ch", "assistant", "a1"⟩], 3⟩ : DB)
        1 "ch" :=
  ⟨by decide,
   (fetch_recent_most_recent
      (⟨[⟨1, 1, "ch", "user", "u1"⟩, ⟨2, 1, "ch", "assistant", "a1"⟩], 3⟩ : DB)
      1 "ch" 5).2 (by decide)⟩

/-- Claim C3: with `HISTORY_LENGTH = 2` (window 4), appending the six turns
u1,a1,u2,a2,u3,a3 in order for one key and then reading with limit 10
returns exactly u2,a2,u3,a3. -/
theorem six_turns_scenario :
    fetch_recent
      (applySaves 2
        [⟨false, 7, "ch", "user", "u1"⟩, ⟨false, 7, "ch", "assistant", "a1"⟩,
         ⟨false, 7, "ch", "user", "u2"⟩, ⟨false, 7, "ch", "assistant", "a2"⟩,
         ⟨false, 7, "ch", "user", "u3"⟩, ⟨false, 7, "ch", "assistant", "a3"⟩]
        dbEmpty)
      7 "ch" 10 =
    [⟨"user", "u2"⟩, ⟨"assistant", "a2"⟩, ⟨"user", "u3"⟩, ⟨"assistant", "a3"⟩] := by
  decide

/-- Claim C4 counterexample: a storage fault during `save_message` does NOT
surface a `StorageUnavailable` error — the broad `except` clause swallows
it and the call returns normally with the store unchanged. -/
theorem save_fault_not_surfaced_cex :
    save_message 10 true dbEmpty 1 "ch" "user" "hi" = Except.ok dbEmpty ∧
    save_message 10 true dbEmpty 1 "ch" "user" "hi" ≠
      Except.error StorageErr.unavailable := by
  refine ⟨rfl, ?_⟩
  intro h
  simp [save_message] at h

/-- Claim C4 (amended): a storage fault during `save_message` is caught and
swallowed inside the store — the call always returns normally (no error
reaches the caller), and under a fault the store is left unchanged. -/
theorem save_fault_swallowed (H : Nat) (fault : Bool) (db : DB) (u : Nat)
    (c role content : String) :
    save_message H true db u c role content = Except.ok db ∧
    ∃ d, save_message H fault db u c role content = Except.ok d :=
  ⟨rfl, ⟨_, rfl⟩⟩

/-- Claim C5: a storage fault during `get_history` is not propagated: the
call completes, yielding zero stored turns (only the constant system
prompt). -/
theorem get_history_fault_empty (H : Nat) (db : DB) (u : Nat) (c : String) :
    history_turns H true db u c = [] ∧ get_history H true db u c = [systemMsg] :=
  ⟨rfl, rfl⟩

/-- Claim C6: reading a key with zero stored turns yields zero turns (the
returned history is just the constant system prompt) and no error. -/
theorem get_history_empty_key (H : Nat) (db : DB) (u : Nat) (c : String)
    (h : countKey db u c = 0) :
    history_turns H false db u c = [] ∧
    get_history H false db u c = [systemMsg] := by
  have hk : keyRows db u c = [] := List.eq_nil_of_length_eq_zero h
  have h1 : history_turns H false db u c = [] := by
    rw [history_turns]
    simp [fetch_recent, selectDesc, hk]
  exact ⟨h1, by rw [get_history, h1]⟩

theorem get_history_empty_key_witness :
    countKey dbEmpty 1 "ch" = 0 ∧ get_history 10 false dbEmpty 1 "ch" = [systemMsg] :=
  ⟨by decide, (get_history_empty_key 10 dbEmpty 1 "ch" (by decide)).2⟩

/-- Claim C7: a successful `save_message` leaves for its key exactly the
newest `H * 2` of the old turns followed by the new one — the surviving
turns are a suffix (oldest deleted first, survivors neither reordered nor
mutated) of the old turn list extended by the inserted row. -/
theorem save_trims_oldest (H : Nat) (db : DB) (u : Nat) (c role content : String)
    (hwf : WF db) :
    keyRows (applySave H ⟨false, u, c, role, content⟩ db) u c =
      (keyRows db u c ++ [newRow db u c role content]).drop
        ((keyRows db u c).length + 1 - H * 2) ∧
    (keyRows (applySave H ⟨false, u, c, role, content⟩ db) u c).IsSuffix
      (keyRows db u c ++ [newRow db u c role content]) := by
  have ha : applySave H ⟨false, u, c, role, content⟩ db =
      save_ok H db u c role content := applySave_eq H ⟨false, u, c, role, content⟩ db
  constructor
  · rw [ha]
    exact keyRows_save_ok_self H db u c role content hwf
  · rw [ha, keyRows_save_ok_self H db u c role content hwf]
    exact List.drop_suffix _ _

theorem save_trims_oldest_witness :
    WF (⟨[⟨1, 1, "ch", "user", "u1"⟩, ⟨2, 1, "ch", "assistant", "a1"⟩], 3⟩ : DB) ∧
    (keyRows
        (applySave 1 ⟨false, 1, "ch", "user", "u2"⟩
          (⟨[⟨1, 1, "ch", "user", "u1"⟩, ⟨2, 1, "ch", "assistant", "a1"⟩], 3⟩ : DB))
        1 "ch" =
      (keyRows (⟨[⟨1, 1, "ch", "user", "u1"⟩, ⟨2, 1, "ch", "assistant", "a1"⟩], 3⟩ : DB)
          1 "ch" ++
        [newRow (⟨[⟨1, 1, "ch", "user", "u1"⟩, ⟨2, 1, "ch", "assistant", "a1"⟩], 3⟩ : DB)
          1 "ch" "user" "u2"]).drop
        ((keyRows (⟨[⟨1, 1, "ch", "user", "u1"⟩, ⟨2, 1, "ch", "assistant", "a1"⟩], 3⟩ : DB)
            1 "ch").length + 1 - 1 * 2) ∧
      (keyRows
          (applySave 1 ⟨false, 1, "ch", "user", "u2"⟩
            (⟨[⟨1, 1, "ch", "user", "u1"⟩, ⟨2, 1, "ch", "assistant", "a1"⟩], 3⟩ : DB))
          1 "ch").IsSuffix
        (keyRows (⟨[⟨1, 1, "ch", "user", "u1"⟩, ⟨2, 1, "ch", "assistant", "a1"⟩], 3⟩ : DB)
            1 "ch" ++
          [newRow (⟨[⟨1, 1, "ch", "user", "u1"⟩, ⟨2, 1, "ch", "assistant", "a1"⟩], 3⟩ : DB)
            1 "ch" "user" "u2"])) :=
  ⟨by decide,
   save_trims_oldest 1
     (⟨[⟨1, 1, "ch", "user", "u1"⟩, ⟨2, 1, "ch", "assistant", "a1"⟩], 3⟩ : DB)
     1 "ch" "user" "u2" (by decide)⟩

/-- Claim C8: a `save_message` call on key (u, c) — faulting or not — leaves
the turns stored under any other key (u', c') unchanged in count, content
and order. -/
theorem save_frame_other_key (H : Nat) (fault : Bool) (db : DB) (u : Nat)
    (c role content : String) (u' : Nat) (c' : String) (hwf : WF db)
    (hne : ¬(u' = u ∧ c' = c)) :
    keyRows (applySave H ⟨fault, u, c, role, content⟩ db) u' c' =
      keyRows db u' c' := by
  rw [applySave_eq]
  split
  · rfl
  · exact keyRows_save_ok_other H db u c role content u' c' hwf hne

theorem save_frame_other_key_witness :
    WF (⟨[⟨1, 2, "ch", "user", "b1"⟩], 2⟩ : DB) ∧
    ¬((2 : Nat) = 1 ∧ "ch" = "ch") ∧
    keyRows
        (applySave 1 ⟨false, 1, "ch", "user", "a1"⟩
          (⟨[⟨1, 2, "ch", "user", "b1"⟩], 2⟩ : DB)) 2 "ch" =
      keyRows (⟨[⟨1, 2, "ch", "user", "b1"⟩], 2⟩ : DB) 2 "ch" :=
  ⟨by decide, by decide,
   save_frame_other_key 1 false (⟨[⟨1, 2, "ch", "user", "b1"⟩], 2⟩ : DB)
     1 "ch" "user" "a1" 2 "ch" (by decide) (by decide)⟩

/-- Claim C9: `get_history` only reads — it returns the store unchanged, so
two consecutive calls with the same key (and no intervening write) return
identical results. -/
theorem get_history_read_idempotent (H : Nat) (fault : Bool) (db : DB)
    (u : Nat) (c : String) :
    (get_history_op H fault db u c).2 = db ∧
    (get_history_op H fault (get_history_op H fault db u c).2 u c).1 =
      (get_history_op H fault db u c).1 :=
  ⟨rfl, rfl⟩

end AIChat

namespace GiftOps

/-- Claim C10: `remove_giftcode` called with `from_validation = False` returns
`False` immediately: no HTTP request is made and the local `gift_codes` and
`user_giftcodes` tables are untouched, whatever the remote API would have
answered. -/
theorem remove_giftcode_not_validated (st : GiftState) (giftcode : String)
    (net : ApiOutcome) :
    remove_giftcode st giftcode false net = (false, st, false) := rfl

end GiftOps
